import Mathlib

/-!
Verification of the versioned, branch-aware, content-addressable change store
that backs the csv-app editor (src/packages/csv-app/src/routes/editor/state.ts).
The query atoms in state.ts compose predicates imported from the lix SDK
(changeInBranch, changeIsLeafInBranch, changeHasLabel); the SDK itself is not
part of the source tree, so those predicates and the store operations are
modelled from the specification, while the query compositions follow state.ts.
-/

namespace LixStore

/-- A change record: one atomic mutation to one entity, referencing a snapshot,
belonging to exactly one branch, with a creation timestamp. -/
structure Change where
  id : Nat
  file_id : Nat
  entity_id : String
  ctype : String
  snapshot_id : Nat
  branch_id : Nat
  created_at : Nat
  deriving DecidableEq

/-- A branch: a named view selecting which changes are current. -/
structure Branch where
  id : Nat
  name : String
  deriving DecidableEq

/-- An immutable, content-addressed snapshot payload (bytes as a list of Nat). -/
structure Snapshot where
  id : Nat
  content : List Nat
  deriving DecidableEq

/-- A named label, e.g. "confirmed". -/
structure Label where
  id : Nat
  name : String
  deriving DecidableEq

/-- Join row: which change belongs to which change set. -/
structure ChangeSetElement where
  change_id : Nat
  change_set_id : Nat
  deriving DecidableEq

/-- Join row: which label is attached to which change set. -/
structure ChangeSetLabel where
  change_set_id : Nat
  label_id : Nat
  deriving DecidableEq

/-- A discussion thread anchored to a change set. -/
structure Discussion where
  id : Nat
  change_set_id : Nat
  deriving DecidableEq

/-- A comment within a discussion. -/
structure Comment where
  id : Nat
  discussion_id : Nat
  body : String
  created_at : Nat
  deriving DecidableEq

/-- Modelled from the spec: the store state of the lix SDK (not present under
src/), holding the snapshot store, the append-only change log, change sets with
their element and label join tables, labels, discussions, comments, the
process-wide reactive version counter, fresh-id counters, and the monotonic
logical clock used for created_at. -/
structure Store where
  snapshots : List Snapshot
  changes : List Change
  changeSets : List Nat
  changeSetElements : List ChangeSetElement
  changeSetLabels : List ChangeSetLabel
  labels : List Label
  discussions : List Discussion
  comments : List Comment
  version : Nat
  nextSnapshotId : Nat
  nextChangeId : Nat
  nextChangeSetId : Nat
  nextLabelId : Nat
  nextDiscussionId : Nat
  nextCommentId : Nat
  clock : Nat
  deriving DecidableEq

/-- Modelled from the spec: the store at creation, with the version counter
initialized to 0 and every table empty. -/
def emptyStore : Store :=
  ⟨[], [], [], [], [], [], [], [], 0, 0, 0, 0, 0, 0, 0, 0⟩

/-- Modelled from the spec: changeInBranch (lix SDK, missing from src/) is true
iff the branch_id of the change equals the id of the branch. -/
def changeInBranch (b : Branch) (c : Change) : Bool :=
  c.branch_id == b.id

/-- True iff d addresses the same (file_id, entity_id) pair as c. -/
def sameGroup (c d : Change) : Bool :=
  d.file_id == c.file_id && d.entity_id == c.entity_id

/-- True iff d is strictly newer than c: larger created_at, or equal
created_at and larger id (the deterministic tie-break). -/
def newerThan (d c : Change) : Bool :=
  decide (c.created_at < d.created_at) ||
    (decide (c.created_at = d.created_at) && decide (c.id < d.id))

/-- Modelled from the spec: changeIsLeafInBranch (lix SDK, missing from src/)
is true iff the change is in the branch and no change of the same
(file_id, entity_id) group in the branch is strictly newer. -/
def changeIsLeafInBranch (s : Store) (b : Branch) (c : Change) : Bool :=
  changeInBranch b c &&
    s.changes.all (fun d => !(changeInBranch b d && sameGroup c d && newerThan d c))

/-- Modelled from the spec: changeHasLabel (lix SDK, missing from src/) is true
iff the change belongs to at least one change set carrying a label of the given
name; the join chain Change, ChangeSetElement, ChangeSet, ChangeSetLabel, Label
follows the inner joins of activeRowChangesAtom in state.ts. -/
def changeHasLabel (s : Store) (name : String) (c : Change) : Bool :=
  s.changeSetElements.any (fun e =>
    e.change_id == c.id &&
      s.changeSets.any (fun cs =>
        cs == e.change_set_id &&
          s.changeSetLabels.any (fun csl =>
            csl.change_set_id == cs &&
              s.labels.any (fun lab => lab.id == csl.label_id && lab.name == name))))

/-- Modelled from the spec: put of the Snapshot Store returns the id of an
already-stored snapshot when the content is byte-identical to it, else stores
the content under a fresh id. -/
def put (s : Store) (content : List Nat) : Nat × Store :=
  match s.snapshots.find? (fun sn => sn.content == content) with
  | some sn => (sn.id, s)
  | none =>
      (s.nextSnapshotId,
        { s with
            snapshots := ⟨s.nextSnapshotId, content⟩ :: s.snapshots,
            nextSnapshotId := s.nextSnapshotId + 1 })

/-- Modelled from the spec: append of the Change Log creates an immutable
record with a strictly increasing created_at (logical clock) and a fresh id,
and bumps the reactive version counter once. -/
def append (s : Store) (file_id : Nat) (entity_id ctype : String)
    (snapshot_id branch_id : Nat) : Change × Store :=
  let c : Change :=
    ⟨s.nextChangeId, file_id, entity_id, ctype, snapshot_id, branch_id, s.clock⟩
  (c,
    { s with
        changes := c :: s.changes,
        nextChangeId := s.nextChangeId + 1,
        clock := s.clock + 1,
        version := s.version + 1 })

/-- Modelled from the spec: write performs snapshot dedup, append, and the
version bump as one unit (the version is bumped once, inside append). -/
def write (s : Store) (file_id : Nat) (entity_id ctype : String)
    (content : List Nat) (b : Branch) : Change × Store :=
  let r := put s content
  append r.2 file_id entity_id ctype r.1 b.id

/-- The changes for one (file_id, entity_id) pair within one branch, in change
log order (unsorted). -/
def groupChanges (s : Store) (file_id : Nat) (entity_id : String) (b : Branch) :
    List Change :=
  s.changes.filter
    (fun c => c.file_id == file_id && c.entity_id == entity_id && changeInBranch b c)

/-- Insert a change into a list sorted newest first. -/
def insertDesc (c : Change) : List Change → List Change
  | [] => [c]
  | d :: ds => if newerThan d c then d :: insertDesc c ds else c :: d :: ds

/-- Sort a list of changes newest first (by created_at, ties by id). -/
def sortDesc : List Change → List Change
  | [] => []
  | c :: cs => insertDesc c (sortDesc cs)

/-- True iff no element of g is strictly newer than c. -/
def isMaxIn (g : List Change) (c : Change) : Bool :=
  g.all (fun d => !newerThan d c)

/-- Modelled from the spec: history / changesFor of the Query Engine (missing
from src/) returns the changes of the entity in the branch ordered newest
first, as in the orderBy of activeRowChangesAtom in state.ts. -/
def history (s : Store) (file_id : Nat) (entity_id : String) (b : Branch) :
    List Change :=
  sortDesc (groupChanges s file_id entity_id b)

/-- Modelled from the spec: read returns the content of the snapshot referenced
by the leaf change of the entity in the branch, or none when the entity has no
changes in the branch. -/
def read (s : Store) (file_id : Nat) (entity_id : String) (b : Branch) :
    Option (List Nat) :=
  match history s file_id entity_id b with
  | [] => none
  | c :: _ => (s.snapshots.find? (fun sn => sn.id == c.snapshot_id)).map Snapshot.content

/-- unconfirmedChanges: all changes of the file that are leaves in the branch
and lack the "confirmed" label; the filter composition follows
unconfirmedChangesAtom in state.ts (lines 142 to 148). -/
def unconfirmedChanges (s : Store) (file_id : Nat) (b : Branch) : List Change :=
  s.changes.filter
    (fun c =>
      c.file_id == file_id && changeIsLeafInBranch s b c &&
        !changeHasLabel s "confirmed" c)

/-- Modelled from the spec: look up the label of the given name, creating it
under a fresh id when absent (labels have unique names). -/
def getOrCreateLabel (s : Store) (name : String) : Nat × Store :=
  match s.labels.find? (fun l => l.name == name) with
  | some l => (l.id, s)
  | none =>
      (s.nextLabelId,
        { s with
            labels := ⟨s.nextLabelId, name⟩ :: s.labels,
            nextLabelId := s.nextLabelId + 1 })

/-- Reuse the change set of an existing ChangeSetElement of the change, or
create a fresh change set containing the change, and attach the given label id
to that change set. -/
def attachToChangeSet (s1 : Store) (labelId : Nat) (c : Change) : Store :=
  match s1.changeSetElements.find? (fun e => e.change_id == c.id) with
  | some e =>
      if s1.changeSetLabels.any
          (fun l => l.change_set_id == e.change_set_id && l.label_id == labelId) then
        s1
      else
        { s1 with changeSetLabels := ⟨e.change_set_id, labelId⟩ :: s1.changeSetLabels }
  | none =>
      { s1 with
          changeSets := s1.nextChangeSetId :: s1.changeSets,
          nextChangeSetId := s1.nextChangeSetId + 1,
          changeSetElements := ⟨c.id, s1.nextChangeSetId⟩ :: s1.changeSetElements,
          changeSetLabels := ⟨s1.nextChangeSetId, labelId⟩ :: s1.changeSetLabels }

/-- Modelled from the spec: confirm creates or reuses a change set containing
the change and attaches the "confirmed" label to it, bumping the version
counter once. -/
def confirm (s : Store) (c : Change) : Store :=
  let r := getOrCreateLabel s "confirmed"
  { attachToChangeSet r.2 r.1 c with version := s.version + 1 }

/-- Modelled from the spec: unconfirm removes the "confirmed" label from every
change set containing the change, bumping the version counter once. -/
def unconfirm (s : Store) (c : Change) : Store :=
  { s with
      changeSetLabels :=
        s.changeSetLabels.filter
          (fun l =>
            !(s.changeSetElements.any
                (fun e => e.change_id == c.id && e.change_set_id == l.change_set_id) &&
              s.labels.any
                (fun lab => lab.id == l.label_id && lab.name == "confirmed"))),
      version := s.version + 1 }

/-- Modelled from the spec: createChangeSet creates an empty change set. -/
def createChangeSet (s : Store) : Nat × Store :=
  (s.nextChangeSetId,
    { s with
        changeSets := s.nextChangeSetId :: s.changeSets,
        nextChangeSetId := s.nextChangeSetId + 1,
        version := s.version + 1 })

/-- Modelled from the spec: addChange inserts a ChangeSetElement, idempotently;
the version counter is bumped once per committed call. -/
def addChange (s : Store) (cs : Nat) (c : Change) : Store :=
  if s.changeSetElements.any (fun e => e.change_id == c.id && e.change_set_id == cs) then
    { s with version := s.version + 1 }
  else
    { s with
        changeSetElements := ⟨c.id, cs⟩ :: s.changeSetElements,
        version := s.version + 1 }

/-- Modelled from the spec: attachLabel attaches a label to a change set. -/
def attachLabel (s : Store) (cs : Nat) (labelId : Nat) : Store :=
  { s with
      changeSetLabels := ⟨cs, labelId⟩ :: s.changeSetLabels,
      version := s.version + 1 }

/-- Modelled from the spec: removeLabel detaches a label from a change set. -/
def removeLabel (s : Store) (cs : Nat) (labelId : Nat) : Store :=
  { s with
      changeSetLabels :=
        s.changeSetLabels.filter
          (fun l => !(l.change_set_id == cs && l.label_id == labelId)),
      version := s.version + 1 }

/-- Modelled from the spec: addComment appends an immutable comment with a
monotonic timestamp and bumps the version counter once. -/
def addComment (s : Store) (discussion_id : Nat) (body : String) : Comment × Store :=
  let cm : Comment := ⟨s.nextCommentId, discussion_id, body, s.clock⟩
  (cm,
    { s with
        comments := cm :: s.comments,
        nextCommentId := s.nextCommentId + 1,
        clock := s.clock + 1,
        version := s.version + 1 })

/-- Modelled from the spec: currentVersion reads the reactive version counter. -/
def currentVersion (s : Store) : Nat :=
  s.version

/-- The committed mutations of the store: append, label changes (confirm,
unconfirm, attachLabel, removeLabel), change-set membership changes
(createChangeSet, addChange), comments, and whole writes. -/
inductive Mutation where
  | appendM (file_id : Nat) (entity_id ctype : String) (snapshot_id branch_id : Nat)
  | writeM (file_id : Nat) (entity_id ctype : String) (content : List Nat) (b : Branch)
  | confirmM (c : Change)
  | unconfirmM (c : Change)
  | createChangeSetM
  | addChangeM (cs : Nat) (c : Change)
  | attachLabelM (cs labelId : Nat)
  | removeLabelM (cs labelId : Nat)
  | addCommentM (discussion_id : Nat) (body : String)

/-- Apply one committed mutation to the store. -/
def applyMutation (m : Mutation) (s : Store) : Store :=
  match m with
  | .appendM f e t sn bid => (append s f e t sn bid).2
  | .writeM f e t content b => (write s f e t content b).2
  | .confirmM c => confirm s c
  | .unconfirmM c => unconfirm s c
  | .createChangeSetM => (createChangeSet s).2
  | .addChangeM cs c => addChange s cs c
  | .attachLabelM cs l => attachLabel s cs l
  | .removeLabelM cs l => removeLabel s cs l
  | .addCommentM d body => (addComment s d body).2

/-- Branch "main" of the concrete example stores. -/
def branchMain : Branch :=
  ⟨0, "main"⟩

/-- Branch "feature" of the concrete example stores; it never holds changes. -/
def branchFeature : Branch :=
  ⟨1, "feature"⟩

/-- First example change: the older change to entity "id:1" in branch main. -/
def changeA : Change :=
  ⟨0, 1, "id:1", "row", 0, 0, 0⟩

/-- Second example change: the newer change to entity "id:1" in branch main,
the leaf of its group. -/
def changeB : Change :=
  ⟨1, 1, "id:1", "row", 1, 0, 1⟩

/-- A concrete example store: two changes to entity "id:1" of file 1 in branch
main, one change set containing the older change, and one label "other". -/
def exampleStore : Store where
  snapshots := [⟨0, [97]⟩, ⟨1, [98]⟩]
  changes := [changeB, changeA]
  changeSets := [0]
  changeSetElements := [⟨0, 0⟩]
  changeSetLabels := []
  labels := [⟨0, "other"⟩]
  discussions := []
  comments := []
  version := 2
  nextSnapshotId := 2
  nextChangeId := 2
  nextChangeSetId := 1
  nextLabelId := 1
  nextDiscussionId := 0
  nextCommentId := 0
  clock := 2

/-- A variant of the example store in which the leaf change belongs to a change
set carrying only the label "other". -/
def exampleStore2 : Store :=
  { exampleStore with
      changeSetElements := [⟨1, 0⟩],
      changeSetLabels := [⟨0, 0⟩] }

/-! ### Ordering lemmas for the (created_at, id) lexicographic order -/

theorem newerThan_true_iff (d c : Change) :
    newerThan d c = true ↔
      c.created_at < d.created_at ∨ (c.created_at = d.created_at ∧ c.id < d.id) := by
  simp [newerThan]

theorem newerThan_false_iff (d c : Change) :
    newerThan d c = false ↔
      ¬(c.created_at < d.created_at ∨ (c.created_at = d.created_at ∧ c.id < d.id)) := by
  rw [← newerThan_true_iff, Bool.eq_false_iff, ne_eq]

theorem newerThan_irrefl (c : Change) : newerThan c c = false := by
  rw [newerThan_false_iff]; omega

theorem newerThan_asymm {c d : Change} (h : newerThan d c = true) :
    newerThan c d = false := by
  rw [newerThan_true_iff] at h; rw [newerThan_false_iff]; omega

theorem newerThan_false_of_false_true {c m d : Change}
    (hcm : newerThan c m = true) (hdm : newerThan d m = false) :
    newerThan d c = false := by
  rw [newerThan_true_iff] at hcm; rw [newerThan_false_iff] at hdm ⊢; omega

theorem newerThan_false_trans {x d c : Change}
    (hxd : newerThan x d = false) (hdc : newerThan d c = false) :
    newerThan x c = false := by
  rw [newerThan_false_iff] at hxd hdc ⊢; omega

theorem newerThan_antisymm {c d : Change}
    (h1 : newerThan d c = false) (h2 : newerThan c d = false) :
    c.created_at = d.created_at ∧ c.id = d.id := by
  rw [newerThan_false_iff] at h1 h2; omega

theorem newerThan_of_not_of_ne {c d : Change}
    (h1 : newerThan d c = false) (h2 : c.id ≠ d.id) :
    newerThan c d = true := by
  rw [newerThan_false_iff] at h1; rw [newerThan_true_iff]; omega

/-! ### Sorting newest first -/

theorem mem_insertDesc {x c : Change} :
    ∀ {l : List Change}, x ∈ insertDesc c l ↔ x = c ∨ x ∈ l := by
  intro l
  induction l with
  | nil => simp [insertDesc]
  | cons d ds ih =>
      cases h : newerThan d c with
      | true => simp [insertDesc, h, ih]; tauto
      | false => simp [insertDesc, h]

theorem perm_insertDesc (c : Change) :
    ∀ (l : List Change), List.Perm (insertDesc c l) (c :: l) := by
  intro l
  induction l with
  | nil => simp [insertDesc]
  | cons d ds ih =>
      cases h : newerThan d c with
      | true =>
          simp only [insertDesc, h, if_true]
          exact (ih.cons d).trans (List.Perm.swap c d ds)
      | false => simp [insertDesc, h]

theorem pairwise_insertDesc {c : Change} :
    ∀ {l : List Change}, l.Pairwise (fun a b => newerThan b a = false) →
      (insertDesc c l).Pairwise (fun a b => newerThan b a = false) := by
  intro l
  induction l with
  | nil => simp [insertDesc]
  | cons d ds ih =>
      intro h
      rcases List.pairwise_cons.mp h with ⟨hd, hds⟩
      cases hdc : newerThan d c with
      | true =>
          simp only [insertDesc, hdc, if_true]
          refine List.pairwise_cons.mpr ⟨?_, ih hds⟩
          intro x hx
          rcases mem_insertDesc.mp hx with rfl | hxds
          · exact newerThan_asymm hdc
          · exact hd x hxds
      | false =>
          simp only [insertDesc, hdc, if_false]
          refine List.pairwise_cons.mpr ⟨?_, h⟩
          intro x hx
          rcases List.mem_cons.mp hx with rfl | hxds
          · exact hdc
          · exact newerThan_false_trans (hd x hxds) hdc

theorem sortDesc_perm : ∀ (l : List Change), List.Perm (sortDesc l) l := by
  intro l
  induction l with
  | nil => simp [sortDesc]
  | cons c cs ih => exact (perm_insertDesc c (sortDesc cs)).trans (ih.cons c)

theorem sortDesc_pairwise :
    ∀ (l : List Change), (sortDesc l).Pairwise (fun a b => newerThan b a = false) := by
  intro l
  induction l with
  | nil => simp [sortDesc]
  | cons c cs ih => exact pairwise_insertDesc ih

/-! ### Existence and uniqueness of the leaf of a group -/

theorem isMaxIn_iff {g : List Change} {c : Change} :
    isMaxIn g c = true ↔ ∀ d ∈ g, newerThan d c = false := by
  simp [isMaxIn]

theorem exists_isMaxIn :
    ∀ (g : List Change), g ≠ [] → ∃ m, m ∈ g ∧ isMaxIn g m = true := by
  intro g
  induction g with
  | nil => intro h; exact absurd rfl h
  | cons c t ih =>
      intro _
      by_cases ht : t = []
      · subst ht
        exact ⟨c, List.mem_cons_self c [], by
          rw [isMaxIn_iff]
          intro d hd
          rcases List.mem_singleton.mp hd with rfl
          exact newerThan_irrefl d⟩
      · obtain ⟨m, hm, hmax⟩ := ih ht
        rw [isMaxIn_iff] at hmax
        cases hcm : newerThan c m with
        | true =>
            refine ⟨c, List.mem_cons_self c t, ?_⟩
            rw [isMaxIn_iff]
            intro d hd
            rcases List.mem_cons.mp hd with rfl | hdt
            · exact newerThan_irrefl d
            · exact newerThan_false_of_false_true hcm (hmax d hdt)
        | false =>
            refine ⟨m, List.mem_cons_of_mem c hm, ?_⟩
            rw [isMaxIn_iff]
            intro d hd
            rcases List.mem_cons.mp hd with rfl | hdt
            · exact hcm
            · exact hmax d hdt

theorem isMaxIn_unique {g : List Change} {c d : Change}
    (hids : (g.map Change.id).Nodup)
    (hc : c ∈ g) (hd : d ∈ g)
    (hmc : isMaxIn g c = true) (hmd : isMaxIn g d = true) : c = d := by
  rw [isMaxIn_iff] at hmc hmd
  have h1 : newerThan d c = false := hmc d hd
  have h2 : newerThan c d = false := hmd c hc
  have hkey := newerThan_antisymm h1 h2
  exact List.inj_on_of_nodup_map hids hc hd hkey.2

theorem countP_isMaxIn_eq_one {g : List Change}
    (hg : g ≠ []) (hids : (g.map Change.id).Nodup) :
    g.countP (isMaxIn g) = 1 := by
  obtain ⟨m, hm, hmax⟩ := exists_isMaxIn g hg
  have hnd : g.Nodup := hids.of_map
  have hcong : g.countP (isMaxIn g) = g.countP (fun x => x == m) := by
    apply List.countP_congr
    intro x hx
    simp only [beq_iff_eq]
    constructor
    · intro hxm
      exact isMaxIn_unique hids hx hm hxm hmax
    · intro he
      subst he
      exact hmax
  rw [hcong, ← List.count_eq_countP]
  exact List.count_eq_one_of_mem hnd hm

/-! ### The branch leaf predicate coincides with the group maximum -/

theorem mem_groupChanges {s : Store} {F : Nat} {E : String} {b : Branch} {c : Change} :
    c ∈ groupChanges s F E b ↔
      c ∈ s.changes ∧ c.file_id = F ∧ c.entity_id = E ∧ c.branch_id = b.id := by
  simp [groupChanges, List.mem_filter, changeInBranch, and_assoc]

theorem changeIsLeafInBranch_iff {s : Store} {b : Branch} {c : Change} :
    changeIsLeafInBranch s b c = true ↔
      c.branch_id = b.id ∧
        ∀ d ∈ s.changes, d.branch_id = b.id → d.file_id = c.file_id →
          d.entity_id = c.entity_id → newerThan d c = false := by
  simp only [changeIsLeafInBranch, Bool.and_eq_true, List.all_eq_true, Bool.not_eq_true']
  constructor
  · rintro ⟨h1, h2⟩
    refine ⟨by simpa [changeInBranch] using h1, ?_⟩
    intro d hd hdb hdf hde
    have := h2 d hd
    simpa [changeInBranch, sameGroup, hdb, hdf, hde] using this
  · rintro ⟨h1, h2⟩
    refine ⟨by simp [changeInBranch, h1], ?_⟩
    intro d hd
    by_cases hdb : d.branch_id = b.id
    · by_cases hdf : d.file_id = c.file_id
      · by_cases hde : d.entity_id = c.entity_id
        · simp [changeInBranch, sameGroup, hdb, hdf, hde, h2 d hd hdb hdf hde]
        · simp [sameGroup, hde]
      · simp [sameGroup, hdf]
    · simp [changeInBranch, hdb]

theorem leaf_eq_isMaxIn {s : Store} {F : Nat} {E : String} {b : Branch} {c : Change}
    (hc : c ∈ groupChanges s F E b) :
    changeIsLeafInBranch s b c = isMaxIn (groupChanges s F E b) c := by
  rcases mem_groupChanges.mp hc with ⟨hmem, hF, hE, hb⟩
  have hiff : (changeIsLeafInBranch s b c = true) ↔
      (isMaxIn (groupChanges s F E b) c = true) := by
    rw [isMaxIn_iff, changeIsLeafInBranch_iff]
    constructor
    · rintro ⟨-, hall⟩ d hd
      rcases mem_groupChanges.mp hd with ⟨hdmem, hdF, hdE, hdb⟩
      exact hall d hdmem hdb (by rw [hdF, hF]) (by rw [hdE, hE])
    · intro hall
      refine ⟨hb, ?_⟩
      intro d hdmem hdb hdf hde
      exact hall d (mem_groupChanges.mpr
        ⟨hdmem, by rw [hdf, hF], by rw [hde, hE], hdb⟩)
  cases h1 : changeIsLeafInBranch s b c with
  | true => exact (hiff.mp h1).symm
  | false =>
      cases h2 : isMaxIn (groupChanges s F E b) c with
      | true => exact absurd (hiff.mpr h2) (by simp [h1])
      | false => rfl

theorem countP_leaf_groupChanges {s : Store} {F : Nat} {E : String} {b : Branch}
    (hg : groupChanges s F E b ≠ [])
    (hids : ((groupChanges s F E b).map Change.id).Nodup) :
    (groupChanges s F E b).countP (changeIsLeafInBranch s b) = 1 := by
  have hcong : (groupChanges s F E b).countP (changeIsLeafInBranch s b) =
      (groupChanges s F E b).countP (isMaxIn (groupChanges s F E b)) := by
    apply List.countP_congr
    intro x hx
    rw [leaf_eq_isMaxIn hx]
  rw [hcong]
  exact countP_isMaxIn_eq_one hg hids

theorem groupChanges_ids_nodup {s : Store} {F : Nat} {E : String} {b : Branch}
    (hids : (s.changes.map Change.id).Nodup) :
    ((groupChanges s F E b).map Change.id).Nodup :=
  ((List.filter_sublist s.changes).map Change.id).nodup hids

/-! ### History ordering -/

theorem history_ids_nodup {s : Store} {F : Nat} {E : String} {b : Branch}
    (hids : (s.changes.map Change.id).Nodup) :
    ((history s F E b).map Change.id).Nodup := by
  have hperm := (sortDesc_perm (groupChanges s F E b)).map Change.id
  exact hperm.nodup_iff.mpr (groupChanges_ids_nodup hids)

theorem history_pairwise_strict {s : Store} {F : Nat} {E : String} {b : Branch}
    (hids : (s.changes.map Change.id).Nodup) :
    (history s F E b).Pairwise (fun c d => newerThan c d = true) := by
  have h1 := sortDesc_pairwise (groupChanges s F E b)
  have h2 : (history s F E b).Pairwise (fun a b => a.id ≠ b.id) :=
    List.pairwise_map.mp (history_ids_nodup hids)
  exact (h1.and h2).imp (fun h => newerThan_of_not_of_ne h.1 h.2)

theorem history_countP_leaf {s : Store} {F : Nat} {E : String} {b : Branch}
    (hne : history s F E b ≠ [])
    (hids : (s.changes.map Change.id).Nodup) :
    (history s F E b).countP (changeIsLeafInBranch s b) = 1 := by
  have hperm := sortDesc_perm (groupChanges s F E b)
  rw [history, hperm.countP_eq]
  refine countP_leaf_groupChanges ?_ (groupChanges_ids_nodup hids)
  intro h0
  exact hne (by simp [history, h0, sortDesc])

theorem history_eq_nil_of_no_changes {s : Store} {F : Nat} {E : String} {b : Branch}
    (h : ∀ c ∈ s.changes, ¬(c.file_id = F ∧ c.entity_id = E ∧ c.branch_id = b.id)) :
    history s F E b = [] := by
  have hg : groupChanges s F E b = [] := by
    rw [groupChanges, List.filter_eq_nil_iff]
    intro c hc
    have hh := h c hc
    simp only [changeInBranch, Bool.and_eq_true, beq_iff_eq] at hh ⊢
    tauto
  simp [history, hg, sortDesc]

/-! ### Label join lemmas -/

theorem changeHasLabel_iff {s : Store} {name : String} {c : Change} :
    changeHasLabel s name c = true ↔
      ∃ e ∈ s.changeSetElements, e.change_id = c.id ∧
        ∃ cs ∈ s.changeSets, cs = e.change_set_id ∧
          ∃ l ∈ s.changeSetLabels, l.change_set_id = cs ∧
            ∃ lab ∈ s.labels, lab.id = l.label_id ∧ lab.name = name := by
  simp [changeHasLabel, List.any_eq_true, Bool.and_eq_true, beq_iff_eq]

theorem getOrCreateLabel_found (s : Store) (name : String) :
    (∃ lab ∈ (getOrCreateLabel s name).2.labels,
        lab.id = (getOrCreateLabel s name).1 ∧ lab.name = name) ∧
      (getOrCreateLabel s name).2.changeSetElements = s.changeSetElements ∧
      (getOrCreateLabel s name).2.changeSets = s.changeSets ∧
      (getOrCreateLabel s name).2.changeSetLabels = s.changeSetLabels := by
  unfold getOrCreateLabel
  cases hf : s.labels.find? (fun l => l.name == name) with
  | some l =>
      have hp := List.find?_some hf
      have hmem := List.mem_of_find?_eq_some hf
      simp only [beq_iff_eq] at hp
      exact ⟨⟨l, hmem, rfl, hp⟩, rfl, rfl, rfl⟩
  | none =>
      exact ⟨⟨⟨s.nextLabelId, name⟩, List.mem_cons_self _ _, rfl, rfl⟩, rfl, rfl, rfl⟩

theorem attachToChangeSet_hasLabel (s1 : Store) (labelId : Nat) (c : Change) (v : Nat)
    (hwf : ∀ e ∈ s1.changeSetElements, e.change_set_id ∈ s1.changeSets)
    (hlab : ∃ lab ∈ s1.labels, lab.id = labelId ∧ lab.name = "confirmed") :
    changeHasLabel { attachToChangeSet s1 labelId c with version := v }
      "confirmed" c = true := by
  obtain ⟨lab, hlabmem, hlabid, hlabname⟩ := hlab
  rw [changeHasLabel_iff]
  cases hf : s1.changeSetElements.find? (fun e => e.change_id == c.id) with
  | some e =>
      have hp := List.find?_some hf
      have hmem := List.mem_of_find?_eq_some hf
      simp only [beq_iff_eq] at hp
      cases ha : s1.changeSetLabels.any
          (fun l => l.change_set_id == e.change_set_id && l.label_id == labelId) with
      | true =>
          simp only [attachToChangeSet, hf, ha, if_true]
          obtain ⟨l, hlmem, hl⟩ := List.any_eq_true.mp ha
          simp only [Bool.and_eq_true, beq_iff_eq] at hl
          exact ⟨e, hmem, hp, e.change_set_id, hwf e hmem, rfl,
            l, hlmem, hl.1, lab, hlabmem, by rw [hlabid, hl.2], hlabname⟩
      | false =>
          simp only [attachToChangeSet, hf, ha, Bool.false_eq_true, if_false]
          exact ⟨e, hmem, hp, e.change_set_id, hwf e hmem, rfl,
            ⟨e.change_set_id, labelId⟩, List.mem_cons_self _ _, rfl,
            lab, hlabmem, hlabid, hlabname⟩
  | none =>
      simp only [attachToChangeSet, hf]
      exact ⟨⟨c.id, s1.nextChangeSetId⟩, List.mem_cons_self _ _, rfl,
        s1.nextChangeSetId, List.mem_cons_self _ _, rfl,
        ⟨s1.nextChangeSetId, labelId⟩, List.mem_cons_self _ _, rfl,
        lab, hlabmem, hlabid, hlabname⟩

theorem changeHasLabel_confirm (s : Store) (c : Change)
    (hwf : ∀ e ∈ s.changeSetElements, e.change_set_id ∈ s.changeSets) :
    changeHasLabel (confirm s c) "confirmed" c = true := by
  obtain ⟨hlab, helts, hsets, -⟩ := getOrCreateLabel_found s "confirmed"
  exact attachToChangeSet_hasLabel (getOrCreateLabel s "confirmed").2
    (getOrCreateLabel s "confirmed").1 c (s.version + 1)
    (by rw [helts, hsets]; exact hwf) hlab

theorem changeHasLabel_unconfirm (s : Store) (c : Change) :
    changeHasLabel (unconfirm s c) "confirmed" c = false := by
  rw [Bool.eq_false_iff, ne_eq, changeHasLabel_iff]
  rintro ⟨e, he, hec, cs, -, hcse, l, hl, hlcs, lab, hlab, hlabid, hlabname⟩
  have he2 : e ∈ s.changeSetElements := he
  have hlab2 : lab ∈ s.labels := hlab
  have hl2 := List.mem_filter.mp hl
  have hkeep := hl2.2
  simp only [Bool.not_eq_true', Bool.and_eq_false_iff, List.any_eq_false] at hkeep
  rcases hkeep with hA | hB
  · have := hA e he2
    simp [hec, hcse, hlcs] at this
  · have := hB lab hlab2
    simp [hlabid, hlabname] at this

/-! ### Snapshot store lemmas -/

theorem put_of_mem {s : Store} {content : List Nat}
    (h : ∃ sn ∈ s.snapshots, sn.content = content) :
    (∃ sn ∈ s.snapshots, (put s content).1 = sn.id ∧ sn.content = content) ∧
      (put s content).2 = s := by
  cases hf : s.snapshots.find? (fun sn => sn.content == content) with
  | some sn =>
      have hp := List.find?_some hf
      have hmem := List.mem_of_find?_eq_some hf
      simp only [beq_iff_eq] at hp
      simp only [put, hf]
      exact ⟨⟨sn, hmem, rfl, hp⟩, trivial⟩
  | none =>
      obtain ⟨sn0, hmem, hc⟩ := h
      have := List.find?_eq_none.mp hf sn0 hmem
      simp [hc] at this

theorem put_of_not_mem {s : Store} {content : List Nat}
    (h : ∀ sn ∈ s.snapshots, sn.content ≠ content) :
    (put s content).1 = s.nextSnapshotId ∧
      (put s content).2.snapshots = ⟨s.nextSnapshotId, content⟩ :: s.snapshots := by
  cases hf : s.snapshots.find? (fun sn => sn.content == content) with
  | some sn =>
      have hp := List.find?_some hf
      have hmem := List.mem_of_find?_eq_some hf
      simp only [beq_iff_eq] at hp
      exact absurd hp (h sn hmem)
  | none => simp [put, hf]

theorem put_preserves (s : Store) (content : List Nat) :
    (put s content).2.changes = s.changes ∧
      (put s content).2.nextChangeId = s.nextChangeId ∧
      (put s content).2.clock = s.clock ∧
      (put s content).2.version = s.version := by
  cases hf : s.snapshots.find? (fun sn => sn.content == content) with
  | some sn => simp [put, hf]
  | none => simp [put, hf]

theorem put_mem_result (s : Store) (content : List Nat) :
    ∃ sn ∈ (put s content).2.snapshots,
      sn.content = content ∧ (put s content).1 = sn.id := by
  cases hf : s.snapshots.find? (fun sn => sn.content == content) with
  | some sn =>
      have hp := List.find?_some hf
      have hmem := List.mem_of_find?_eq_some hf
      simp only [beq_iff_eq] at hp
      simp only [put, hf]
      exact ⟨sn, hmem, hp, rfl⟩
  | none =>
      simp only [put, hf]
      exact ⟨⟨s.nextSnapshotId, content⟩, List.mem_cons_self _ _, rfl, rfl⟩

theorem write_fields (s : Store) (f : Nat) (e t : String) (content : List Nat)
    (b : Branch) :
    (write s f e t content b).1.id = s.nextChangeId ∧
      (write s f e t content b).1.branch_id = b.id ∧
      (write s f e t content b).1.snapshot_id = (put s content).1 ∧
      (write s f e t content b).2.snapshots = (put s content).2.snapshots ∧
      (write s f e t content b).2.nextChangeId = s.nextChangeId + 1 ∧
      (write s f e t content b).2.changes =
        (write s f e t content b).1 :: s.changes := by
  obtain ⟨h1, h2, h3, h4⟩ := put_preserves s content
  simp [write, append, h1, h2]

theorem write_then_put (s : Store) (f : Nat) (e t : String) (content : List Nat)
    (b : Branch) :
    (put (write s f e t content b).2 content).1 = (put s content).1 ∧
      (put (write s f e t content b).2 content).2.snapshots =
        (write s f e t content b).2.snapshots := by
  cases hf : s.snapshots.find? (fun sn => sn.content == content) with
  | some sn =>
      have hsnaps : (write s f e t content b).2.snapshots = s.snapshots := by
        simp [write, append, put, hf]
      have hf2 : (write s f e t content b).2.snapshots.find?
          (fun sn => sn.content == content) = some sn := by rw [hsnaps, hf]
      simp [put, hf, hf2]
  | none =>
      have hsnaps : (write s f e t content b).2.snapshots =
          ⟨s.nextSnapshotId, content⟩ :: s.snapshots := by
        simp [write, append, put, hf]
      have hf2 : (write s f e t content b).2.snapshots.find?
          (fun sn => sn.content == content) =
            some ⟨s.nextSnapshotId, content⟩ := by
        rw [hsnaps]
        exact List.find?_cons_of_pos _ (by simp)
      simp [put, hf, hf2]

/-! ### Version counter lemmas -/

theorem applyMutation_version (m : Mutation) (s : Store) :
    (applyMutation m s).version = s.version + 1 := by
  cases m with
  | appendM f e t sn bid => simp [applyMutation, append]
  | writeM f e t content b =>
      obtain ⟨-, -, -, h4⟩ := put_preserves s content
      simp [applyMutation, write, append, h4]
  | confirmM c => simp [applyMutation, confirm]
  | unconfirmM c => simp [applyMutation, unconfirm]
  | createChangeSetM => simp [applyMutation, createChangeSet]
  | addChangeM cs c =>
      cases ha : s.changeSetElements.any
          (fun e => e.change_id == c.id && e.change_set_id == cs) with
      | true => simp [applyMutation, addChange, ha]
      | false => simp [applyMutation, addChange, ha]
  | attachLabelM cs l => simp [applyMutation, attachLabel]
  | removeLabelM cs l => simp [applyMutation, removeLabel]
  | addCommentM d body => simp [applyMutation, addComment]

/-! ### Unconfirmed changes membership -/

theorem mem_unconfirmedChanges {s : Store} {F : Nat} {b : Branch} {c : Change} :
    c ∈ unconfirmedChanges s F b ↔
      c ∈ s.changes ∧ c.file_id = F ∧ changeIsLeafInBranch s b c = true ∧
        changeHasLabel s "confirmed" c = false := by
  simp [unconfirmedChanges, List.mem_filter, Bool.and_eq_true, beq_iff_eq,
    Bool.not_eq_true', and_assoc]

/-! ### The claims -/

/-- C1: for every branch b and change c, changeIsLeafInBranch(b) holds of c iff,
among all changes with the same (file_id, entity_id) pair whose branch_id
equals b.id, c has the maximum created_at with ties broken by the highest
change id; the relation is total and deterministic, picking exactly one change
per nonempty (branch, file, entity) group. -/
theorem claim1_leaf_is_unique_maximum (s : Store) (b : Branch)
    (hids : (s.changes.map Change.id).Nodup) :
    (∀ c : Change, changeIsLeafInBranch s b c = true ↔
      c.branch_id = b.id ∧
        ∀ d ∈ s.changes, d.branch_id = b.id → d.file_id = c.file_id →
          d.entity_id = c.entity_id →
            (d.created_at < c.created_at ∨
              (d.created_at = c.created_at ∧ d.id ≤ c.id))) ∧
    (∀ (F : Nat) (E : String), groupChanges s F E b ≠ [] →
      (groupChanges s F E b).countP (changeIsLeafInBranch s b) = 1) := by
  constructor
  · intro c
    rw [changeIsLeafInBranch_iff]
    constructor
    · rintro ⟨h1, h2⟩
      refine ⟨h1, fun d hd hdb hdf hde => ?_⟩
      have := h2 d hd hdb hdf hde
      rw [newerThan_false_iff] at this
      omega
    · rintro ⟨h1, h2⟩
      refine ⟨h1, fun d hd hdb hdf hde => ?_⟩
      rw [newerThan_false_iff]
      have := h2 d hd hdb hdf hde
      omega
  · intro F E hne
    exact countP_leaf_groupChanges hne (groupChanges_ids_nodup hids)

/-- Concrete instance of C1: in the example store the (main, file 1, "id:1")
group holds two changes and the leaf relation picks exactly one of them. -/
theorem claim1_witness :
    (groupChanges exampleStore 1 "id:1" branchMain).countP
      (changeIsLeafInBranch exampleStore branchMain) = 1 :=
  (claim1_leaf_is_unique_maximum exampleStore branchMain (by decide)).2
    1 "id:1" (by decide)

/-- C2: history(E,B) is strictly ordered newest first by created_at with
deterministic tie-break by id; when non-empty exactly one element satisfies
changeIsLeafInBranch(B); when E has no changes in B it is empty. -/
theorem claim2_history_ordered_unique_leaf (s : Store) (F : Nat) (E : String)
    (b : Branch) (hids : (s.changes.map Change.id).Nodup) :
    (history s F E b).Pairwise (fun c d => newerThan c d = true) ∧
      (history s F E b ≠ [] →
        (history s F E b).countP (changeIsLeafInBranch s b) = 1) ∧
      ((∀ c ∈ s.changes, ¬(c.file_id = F ∧ c.entity_id = E ∧ c.branch_id = b.id)) →
        history s F E b = []) :=
  ⟨history_pairwise_strict hids,
   fun hne => history_countP_leaf hne hids,
   history_eq_nil_of_no_changes⟩

/-- Concrete instance of C2: the history of entity "id:1" in branch main of
the example store has exactly one leaf element. -/
theorem claim2_witness :
    (history exampleStore 1 "id:1" branchMain).countP
      (changeIsLeafInBranch exampleStore branchMain) = 1 :=
  (claim2_history_ordered_unique_leaf exampleStore 1 "id:1" branchMain
    (by decide)).2.1 (by decide)

/-- C3: put is content-addressed and deduplicating (an existing byte-identical
snapshot is reused and the store is unchanged, otherwise a fresh id is
allocated); writing byte-identical content twice for the same entity in the
same branch yields two distinct changes sharing one snapshot, and the snapshot
store does not grow on the second write. -/
theorem claim3_snapshot_dedup :
    (∀ (s : Store) (content : List Nat),
      (∃ sn ∈ s.snapshots, sn.content = content) →
        (∃ sn ∈ s.snapshots, (put s content).1 = sn.id ∧ sn.content = content) ∧
          (put s content).2 = s) ∧
    (∀ (s : Store) (content : List Nat),
      (∀ sn ∈ s.snapshots, sn.content ≠ content) →
        (put s content).1 = s.nextSnapshotId ∧
          (put s content).2.snapshots =
            ⟨s.nextSnapshotId, content⟩ :: s.snapshots) ∧
    (∀ (s : Store) (f : Nat) (e t : String) (content : List Nat) (b : Branch),
      (write s f e t content b).1.id ≠
          (write (write s f e t content b).2 f e t content b).1.id ∧
        (write s f e t content b).1.snapshot_id =
          (write (write s f e t content b).2 f e t content b).1.snapshot_id ∧
        (write (write s f e t content b).2 f e t content b).2.snapshots.length =
          (write s f e t content b).2.snapshots.length) := by
  refine ⟨fun s content h => put_of_mem h,
    fun s content h => put_of_not_mem h, ?_⟩
  intro s f e t content b
  obtain ⟨hid1, -, hsnap1, hsnaps1, hnext1, -⟩ := write_fields s f e t content b
  obtain ⟨hid2, -, hsnap2, hsnaps2, -, -⟩ :=
    write_fields (write s f e t content b).2 f e t content b
  obtain ⟨hput1, hput2⟩ := write_then_put s f e t content b
  refine ⟨?_, ?_, ?_⟩
  · rw [hid1, hid2, hnext1]
    omega
  · rw [hsnap1, hsnap2, hput1]
  · rw [hsnaps2, hput2]

/-- Concrete instance of C3: putting content already present in the example
store returns an existing id and leaves the store unchanged. -/
theorem claim3_witness :
    (∃ sn ∈ exampleStore.snapshots, (put exampleStore [97]).1 = sn.id ∧
      sn.content = [97]) ∧ (put exampleStore [97]).2 = exampleStore :=
  claim3_snapshot_dedup.1 exampleStore [97] (by decide)

/-- C4: changeInBranch(b) holds of c iff c.branch_id equals b.id, and a change
appended to branch A never satisfies changeInBranch(B) for a branch B with an
id distinct from the id of A. -/
theorem claim4_branch_isolation (s : Store) (f : Nat) (e t : String)
    (snapId : Nat) (bA bB : Branch) (hne : bB.id ≠ bA.id) :
    (∀ c : Change, changeInBranch bB c = true ↔ c.branch_id = bB.id) ∧
      changeInBranch bB (append s f e t snapId bA.id).1 = false := by
  constructor
  · intro c
    simp [changeInBranch]
  · show (bA.id == bB.id) = false
    exact beq_eq_false_iff_ne.mpr (fun h => hne h.symm)

/-- Concrete instance of C4: a change appended to branch main is not in branch
feature. -/
theorem claim4_witness :
    changeInBranch branchFeature
      (append exampleStore 1 "id:2" "row" 0 branchMain.id).1 = false :=
  (claim4_branch_isolation exampleStore 1 "id:2" "row" 0 branchMain
    branchFeature (by decide)).2

/-- C5: unconfirmedChanges(F,B) returns exactly the changes of file F that are
leaves in B and lack the "confirmed" label; a leaf change is included until
confirm is called on it and excluded afterwards. -/
theorem claim5_unconfirmed_changes (s : Store) (F : Nat) (b : Branch)
    (c : Change)
    (hwf : ∀ e ∈ s.changeSetElements, e.change_set_id ∈ s.changeSets) :
    (c ∈ unconfirmedChanges s F b ↔
      c ∈ s.changes ∧ c.file_id = F ∧ changeIsLeafInBranch s b c = true ∧
        changeHasLabel s "confirmed" c = false) ∧
      c ∉ unconfirmedChanges (confirm s c) F b := by
  refine ⟨mem_unconfirmedChanges, ?_⟩
  intro hmem
  have h := (mem_unconfirmedChanges.mp hmem).2.2.2
  rw [changeHasLabel_confirm s c hwf] at h
  exact Bool.noConfusion h

/-- Concrete instance of C5: the leaf change of the example store is
unconfirmed until confirm is called on it, and excluded afterwards. -/
theorem claim5_witness :
    changeB ∈ unconfirmedChanges exampleStore 1 branchMain ∧
      changeB ∉ unconfirmedChanges (confirm exampleStore changeB) 1 branchMain :=
  ⟨(claim5_unconfirmed_changes exampleStore 1 branchMain changeB
      (by decide)).1.mpr ⟨by decide, by decide, by decide, by decide⟩,
   (claim5_unconfirmed_changes exampleStore 1 branchMain changeB
      (by decide)).2⟩

/-- C6: changeHasLabel(L) holds of c iff some ChangeSetElement links c to a
change set that has a ChangeSetLabel linking it to a Label named L: the
predicate equals the join Change, ChangeSetElement, ChangeSet, ChangeSetLabel,
Label. -/
theorem claim6_label_join (s : Store) (L : String) (c : Change) :
    changeHasLabel s L c = true ↔
      ∃ e ∈ s.changeSetElements, e.change_id = c.id ∧
        ∃ cs ∈ s.changeSets, cs = e.change_set_id ∧
          ∃ l ∈ s.changeSetLabels, l.change_set_id = cs ∧
            ∃ lab ∈ s.labels, lab.id = l.label_id ∧ lab.name = L :=
  changeHasLabel_iff

/-- C7: the store holds a single version counter initialized at store creation,
incremented exactly once per committed mutation; after any mutation
currentVersion() is strictly greater than before, and two sequential reads with
no intervening mutation return equal values. -/
theorem claim7_version_counter :
    emptyStore.version = 0 ∧
      (∀ (m : Mutation) (s : Store),
        currentVersion (applyMutation m s) = currentVersion s + 1 ∧
          currentVersion s < currentVersion (applyMutation m s)) ∧
      (∀ s : Store, currentVersion s = currentVersion s) := by
  refine ⟨rfl, fun m s => ?_, fun s => rfl⟩
  have h := applyMutation_version m s
  constructor
  · simpa [currentVersion] using h
  · simp only [currentVersion, h]
    omega

/-- C8: confirm(c) then unconfirm(c) leaves changeHasLabel("confirmed") false
of c; confirm(c) alone leaves it true, by creating or reusing a change set
containing c and attaching the "confirmed" label to it. -/
theorem claim8_confirm_unconfirm (s : Store) (c : Change)
    (hwf : ∀ e ∈ s.changeSetElements, e.change_set_id ∈ s.changeSets) :
    changeHasLabel (confirm s c) "confirmed" c = true ∧
      changeHasLabel (unconfirm (confirm s c) c) "confirmed" c = false ∧
      (∃ e ∈ (confirm s c).changeSetElements, e.change_id = c.id ∧
        ∃ cs ∈ (confirm s c).changeSets, cs = e.change_set_id ∧
          ∃ l ∈ (confirm s c).changeSetLabels, l.change_set_id = cs ∧
            ∃ lab ∈ (confirm s c).labels, lab.id = l.label_id ∧
              lab.name = "confirmed") :=
  ⟨changeHasLabel_confirm s c hwf,
   changeHasLabel_unconfirm (confirm s c) c,
   changeHasLabel_iff.mp (changeHasLabel_confirm s c hwf)⟩

/-- Concrete instance of C8: the confirm and unconfirm round trip on the leaf
change of the example store. -/
theorem claim8_witness :
    changeHasLabel (confirm exampleStore changeB) "confirmed" changeB = true ∧
      changeHasLabel (unconfirm (confirm exampleStore changeB) changeB)
        "confirmed" changeB = false :=
  ⟨(claim8_confirm_unconfirm exampleStore changeB (by decide)).1,
   (claim8_confirm_unconfirm exampleStore changeB (by decide)).2.1⟩

/-- C9: querying a branch or an entity with no changes returns an empty
history and an absent read, never an error. The hypothesis only asks that the
queried entity has no changes in the queried branch, so it covers both an
entirely change-free branch and an unwritten entity in a branch holding other
entities' changes; in particular after a write in branch main, a read against
a change-free branch feature is absent. -/
theorem claim9_empty_queries (s : Store) (F : Nat) (E : String) (b : Branch)
    (h : ∀ c ∈ s.changes,
      ¬(c.file_id = F ∧ c.entity_id = E ∧ c.branch_id = b.id)) :
    history s F E b = [] ∧ read s F E b = none ∧
      (∀ (f2 : Nat) (e2 t : String) (content : List Nat) (bM : Branch),
        bM.id ≠ b.id →
          read (write s f2 e2 t content bM).2 F E b = none) := by
  have hhist : history s F E b = [] := history_eq_nil_of_no_changes h
  refine ⟨hhist, by simp [read, hhist], ?_⟩
  intro f2 e2 t content bM hne
  have h2 : ∀ c ∈ (write s f2 e2 t content bM).2.changes,
      ¬(c.file_id = F ∧ c.entity_id = E ∧ c.branch_id = b.id) := by
    obtain ⟨-, hbr, -, -, -, hch⟩ := write_fields s f2 e2 t content bM
    rw [hch]
    intro c hc
    rcases List.mem_cons.mp hc with rfl | hcs
    · rintro ⟨-, -, hb3⟩
      rw [hbr] at hb3
      exact hne hb3
    · exact h c hcs
  have hhist2 : history (write s f2 e2 t content bM).2 F E b = [] :=
    history_eq_nil_of_no_changes h2
  simp [read, hhist2]

/-- Concrete instance of C9: reading the unwritten entity "id:9" in branch
main — a branch that does hold changes for entity "id:1" — is absent, and
after writing entity "id:9" in branch main, reading entity "id:1" in the
change-free branch feature is absent. -/
theorem claim9_witness :
    read exampleStore 1 "id:9" branchMain = none ∧
      read (write exampleStore 1 "id:9" "row" [99] branchMain).2 1 "id:1"
        branchFeature = none :=
  ⟨(claim9_empty_queries exampleStore 1 "id:9" branchMain (by decide)).2.1,
   (claim9_empty_queries exampleStore 1 "id:1" branchFeature (by decide)).2.2
     1 "id:9" "row" [99] branchMain (by decide)⟩

/-- C10: membership in a change set does not by itself exclude a change from
unconfirmedChanges: a leaf change of the file whose change sets carry no label
named "confirmed" is included; exclusion depends solely on the "confirmed"
label. -/
theorem claim10_membership_alone (s : Store) (F : Nat) (b : Branch) (c : Change)
    (hc : c ∈ s.changes) (hF : c.file_id = F)
    (hleaf : changeIsLeafInBranch s b c = true)
    (hlab : ∀ e ∈ s.changeSetElements, e.change_id = c.id →
      ∀ l ∈ s.changeSetLabels, l.change_set_id = e.change_set_id →
        ∀ lab ∈ s.labels, lab.id = l.label_id → lab.name ≠ "confirmed") :
    c ∈ unconfirmedChanges s F b := by
  refine mem_unconfirmedChanges.mpr ⟨hc, hF, hleaf, ?_⟩
  rw [Bool.eq_false_iff, ne_eq, changeHasLabel_iff]
  rintro ⟨e, he, hec, cs, -, hcse, l, hl, hlcs, lab, hlabm, hlabid, hlabname⟩
  exact hlab e he hec l hl (by rw [hlcs, hcse]) lab hlabm hlabid hlabname

/-- Concrete instance of C10: in the variant example store the leaf change
belongs to a change set carrying only the label "other" and is still listed
among the unconfirmed changes. -/
theorem claim10_witness :
    changeB ∈ unconfirmedChanges exampleStore2 1 branchMain :=
  claim10_membership_alone exampleStore2 1 branchMain changeB (by decide)
    (by decide) (by decide) (by decide)

end LixStore
